import Mathlib

/-!
Verification development for the single-player blackjack program in
`src/final_project.py`.

Shallow-embedding conventions:

* The implicit global random source of Python is modelled by explicit streams of
  pre-drawn random values threaded through the state.  A `ShuffleRand`
  packages the randomness one `Deck.shuffle_deck` call consumes (the
  `random.randint(-1, 3)` cut perturbation and the successive
  `random.random()` draws of the interleaving loop); a `ResetRand` packages
  the randomness one `Deck.reset_deck` call consumes (the fresh
  `shuffle_point` and the randomness of its 15 shuffle rounds).
* Monetary amounts are exact two-decimal dollar values throughout the
  source (`round(x, 2)` at every boundary), so they are modelled exactly as
  integer cent amounts (`Int`); `2.5 × bet` rounded to two decimals becomes
  `round_half_cent (5 * bet)`.  Likewise `shuffle_point`, always a
  two-decimal value from `round(random.uniform(0.6, 0.85), 2)`, is modelled
  in integer hundredths, and the threshold comparison of `draw_card`,
  `len(cards) <= 312 * (1 - shuffle_point)` is the exactly equivalent
  integer comparison `100 * len(cards) <= 312 * (100 - shuffle_point)`.
* `list.pop()` (pop from the Python end of the list, the "top" of the shoe)
  is modelled by `List.getLast?` / `List.dropLast`; popping an empty list
  is the `none` case.
* Interactive input loops are modelled by the value they finally accept:
  the embedded round functions take the accepted bet and the accepted
  action decisions as arguments, and return an error when the supplied
  decision could not have been accepted by the corresponding loop.
* Display-only strings are abstracted to enumerations (`RoundMsg`); the
  Python local variables `message1` / `message2` of `split`, which are read
  by the final print whether or not they were assigned, are modelled as
  `Option RoundMsg`, with the unassigned-read (`UnboundLocalError`) mapped
  to the error value `Err.unboundLocal`.
-/

/-! ### Cards (`class Card`) -/

inductive Suit
  | spade | heart | diamond | club
deriving DecidableEq

inductive Rank
  | A | R2 | R3 | R4 | R5 | R6 | R7 | R8 | R9 | R10 | J | Q | K
deriving DecidableEq

structure Card where
  suit : Suit
  rank : Rank
deriving DecidableEq

/-- Source `Card.get_value`: face cards are 10, the ace is nominally 11,
numeric ranks are their number. -/
def Card.get_value (c : Card) : Nat :=
  match c.rank with
  | .J | .Q | .K => 10
  | .A => 11
  | .R2 => 2
  | .R3 => 3
  | .R4 => 4
  | .R5 => 5
  | .R6 => 6
  | .R7 => 7
  | .R8 => 8
  | .R9 => 9
  | .R10 => 10

/-- The `value` attribute set in `Card.__init__` (always `get_value`). -/
def Card.value (c : Card) : Nat := c.get_value

/-! ### The shoe (`class Deck`) -/

/-- The randomness consumed by one call of `Deck.shuffle_deck`. -/
structure ShuffleRand where
  /-- the `random.randint(-1, 3)` perturbation of the cut point -/
  rcut : Int
  /-- the successive `random.random()` draws of the interleaving loop -/
  us : Nat → ℚ

/-- The interleaving loop of `Deck.shuffle_deck`: while both piles are
nonempty, draw the front card of one pile (left with probability 0.6 / 0.4 /
0.5 according to which pile is currently longer), then append the remainder
of the surviving pile unchanged. -/
def riffle (u : Nat → ℚ) : Nat → List Card → List Card → List Card
  | _, [], right => right
  | _, left, [] => left
  | k, a :: l, b :: r =>
    if u k < (if (b :: r).length < (a :: l).length then (6/10 : ℚ)
              else if (a :: l).length < (b :: r).length then (4/10 : ℚ)
              else (5/10 : ℚ))
    then a :: riffle u (k + 1) l (b :: r)
    else b :: riffle u (k + 1) (a :: l) r
termination_by _k l r => l.length + r.length
decreasing_by
  all_goals simp [List.length_cons]

/-- Source `Deck.shuffle_deck`: cut at `len(cards) // (2 + randint(-1, 3))` and
riffle the two piles together. -/
def shuffle_deck (sr : ShuffleRand) (cards : List Card) : List Card :=
  riffle sr.us 0
    (cards.take (cards.length / (2 + sr.rcut).toNat))
    (cards.drop (cards.length / (2 + sr.rcut).toNat))

/-- The suit list of `Deck.reset_deck`. -/
def suits : List Suit := [.spade, .heart, .diamond, .club]

/-- The rank list of `Deck.reset_deck`. -/
def ranks : List Rank :=
  [.A, .R2, .R3, .R4, .R5, .R6, .R7, .R8, .R9, .R10, .J, .Q, .K]

/-- Source `self.num_decks`. -/
def numDecks : Nat := 6

/-- The randomness consumed by one call of `Deck.reset_deck`. -/
structure ResetRand where
  /-- the fresh `round(random.uniform(0.6, 0.85), 2)` shuffle point,
  in hundredths (a value in [60, 85]) -/
  sp : Nat
  /-- the randomness of the successive `shuffle_deck` calls -/
  rounds : Nat → ShuffleRand

/-- The state of `class Deck`: its card list and shuffle point, together
with the stream of reset randomness the deck will consume (`rand`) and the
index of the next unused entry (`ridx`). -/
structure Deck where
  cards : List Card
  /-- the shuffle point, in hundredths -/
  shuffle_point : Nat
  rand : Nat → ResetRand
  ridx : Nat

/-- Applies `n` successive `shuffle_deck` rounds. -/
def shuffle_times (rr : Nat → ShuffleRand) : Nat → List Card → List Card
  | 0, cs => cs
  | n + 1, cs => shuffle_deck (rr n) (shuffle_times rr n cs)

/-- The cards appended by the nested loops of `Deck.reset_deck`:
`num_decks` copies of each suit × rank combination, in loop order. -/
def freshDecks : List Card :=
  (List.range numDecks).flatMap fun _ =>
    suits.flatMap fun s => ranks.map fun r => { suit := s, rank := r }

/-- Source `Deck.reset_deck`: draw a fresh shuffle point, **append** the
`num_decks * 52` ordered cards to the current card list (the source never
clears `self.cards`), apply 15 shuffle rounds, and burn the top card. -/
def reset_deck (r : ResetRand) (d : Deck) : Deck :=
  { d with
    shuffle_point := r.sp
    cards := (shuffle_times r.rounds 15 (d.cards ++ freshDecks)).dropLast }

/-- Source `Deck.__init__`: empty card list, `shuffle_point = 1`, then
`reset_deck`. -/
def deckInit (rand : Nat → ResetRand) : Deck :=
  reset_deck (rand 0) { cards := [], shuffle_point := 100, rand := rand, ridx := 1 }

/-- Source `Deck.draw_card`: if the remaining length is at most
`num_decks * 52 * (1 - shuffle_point)` the deck is reset first; then the
top card is popped.  `none` models `pop` raising on an empty list. -/
def draw_card (d : Deck) : Option (Card × Deck) :=
  let d1 :=
    if (d.cards.length : Int) * 100 ≤
        (numDecks * 52 : Int) * (100 - (d.shuffle_point : Int))
    then reset_deck (d.rand d.ridx) { d with ridx := d.ridx + 1 }
    else d
  match d1.cards.getLast? with
  | some c => some (c, { d1 with cards := d1.cards.dropLast })
  | none => none

/-! ### Shuffle permutation and length lemmas -/

theorem riffle_perm (u : Nat → ℚ) (n : Nat) :
    ∀ (k : Nat) (l r : List Card), l.length + r.length ≤ n →
      List.Perm (riffle u k l r) (l ++ r) := by
  induction n with
  | zero =>
    intro k l r h
    have hl : l = [] := by cases l <;> simp_all
    subst hl
    simp [riffle.eq_1]
  | succ n ih =>
    intro k l r h
    match l, r with
    | [], r => simp [riffle.eq_1]
    | a :: l, [] =>
      rw [riffle.eq_2 u k (a :: l) (by simp)]
      simp
    | a :: l, b :: r =>
      rw [riffle.eq_3]
      have hL := ih (k + 1) l (b :: r) (by simp at h ⊢; omega)
      have hR := ih (k + 1) (a :: l) r (by simp at h ⊢; omega)
      by_cases hu : u k < (if (b :: r).length < (a :: l).length then (6/10 : ℚ)
          else if (a :: l).length < (b :: r).length then (4/10 : ℚ)
          else (5/10 : ℚ))
      · rw [if_pos hu]
        exact hL.cons a
      · rw [if_neg hu]
        exact (hR.cons b).trans List.perm_middle.symm

theorem shuffle_deck_perm_aux (sr : ShuffleRand) (cards : List Card) :
    List.Perm (shuffle_deck sr cards) cards := by
  unfold shuffle_deck
  have h := riffle_perm sr.us cards.length 0
    (cards.take (cards.length / (2 + sr.rcut).toNat))
    (cards.drop (cards.length / (2 + sr.rcut).toNat))
    (by simp [List.length_take, List.length_drop]; omega)
  simpa [List.take_append_drop] using h

theorem shuffle_times_length (rr : Nat → ShuffleRand) (n : Nat) (cs : List Card) :
    (shuffle_times rr n cs).length = cs.length := by
  induction n with
  | zero => rfl
  | succ n ih =>
    have h := (shuffle_deck_perm_aux (rr n) (shuffle_times rr n cs)).length_eq
    simpa [shuffle_times, ih] using h

set_option maxRecDepth 4000 in
theorem freshDecks_length : freshDecks.length = 312 := by decide

theorem reset_deck_length (r : ResetRand) (d : Deck) :
    (reset_deck r d).cards.length = d.cards.length + 311 := by
  simp only [reset_deck, List.length_dropLast, shuffle_times_length,
    List.length_append, freshDecks_length]
  omega

/-- After construction the shoe holds exactly `312 - 1 = 311` cards. -/
theorem deckInit_length (rand : Nat → ResetRand) :
    (deckInit rand).cards.length = 311 := by
  simp [deckInit, reset_deck_length]

/-! ### C10 -/

/-- C10: one application of `shuffle_deck` returns a permutation of its
input, for every card sequence and every outcome of the random choices:
the multiset of cards and the length are preserved. -/
theorem shuffle_deck_is_permutation (sr : ShuffleRand) (cards : List Card) :
    List.Perm (shuffle_deck sr cards) cards ∧
      (shuffle_deck sr cards).length = cards.length :=
  ⟨shuffle_deck_perm_aux sr cards, (shuffle_deck_perm_aux sr cards).length_eq⟩

/-! ### C1 -/

/-- A concrete reset randomness value. -/
def r1 : ResetRand :=
  { sp := 75, rounds := fun _ => { rcut := 0, us := fun _ => 0 } }

/-- A shoe state with exactly one remaining card (as reached after many
draws), about to be reshuffled. -/
def dOneCard : Deck :=
  { cards := [{ suit := .diamond, rank := .R2 }]
    shuffle_point := 85
    rand := fun _ => r1
    ridx := 0 }

/-- C1 (code bug witness): `reset_deck` never discards the remaining
cards — reshuffling a shoe that still holds one card leaves `1 + 311 = 312`
cards, not the claimed 311. -/
theorem reset_deck_after_reshuffle_not_311 :
    (reset_deck r1 dOneCard).cards.length = 312 := by
  rw [reset_deck_length]
  rfl

/-! ### C9 -/

/-- C9: a draw never fails.  For every shoe state whose shuffle point lies
in the interval `[0.60, 0.85]` from which it is drawn (in hundredths:
`[60, 85]`), the reshuffle threshold `312 × (1 − shuffle_point)` is
strictly positive (stated in the exact hundredths scaling:
`312 × (100 − shuffle_point) > 0`), and `draw_card` always returns a card:
either the remaining length exceeds the (positive) threshold, or the shoe
is replenished to at least 311 cards before the pop. -/
theorem draw_card_never_fails (d : Deck)
    (h1 : 60 ≤ d.shuffle_point) (h2 : d.shuffle_point ≤ 85) :
    0 < (numDecks * 52 : Int) * (100 - (d.shuffle_point : Int)) ∧
      (draw_card d).isSome = true := by
  have hd : (d.shuffle_point : Int) ≤ 85 := by exact_mod_cast h2
  have h312 : (numDecks * 52 : Int) = 312 := by norm_num [numDecks]
  have hpos : 0 < (numDecks * 52 : Int) * (100 - (d.shuffle_point : Int)) := by
    rw [h312]
    omega
  refine ⟨hpos, ?_⟩
  unfold draw_card
  by_cases hc : (d.cards.length : Int) * 100 ≤
      (numDecks * 52 : Int) * (100 - (d.shuffle_point : Int))
  · simp only [hc, if_true]
    have hlen := reset_deck_length (d.rand d.ridx) { d with ridx := d.ridx + 1 }
    have hne : (reset_deck (d.rand d.ridx) { d with ridx := d.ridx + 1 }).cards ≠ [] := by
      intro h0
      rw [h0] at hlen
      simp at hlen
    have hs := List.getLast?_isSome.mpr hne
    cases hgl : (reset_deck (d.rand d.ridx) { d with ridx := d.ridx + 1 }).cards.getLast? with
    | none => rw [hgl] at hs; simp at hs
    | some c => simp
  · simp only [hc, if_false]
    have h0 : (0 : Int) < (d.cards.length : Int) * 100 :=
      lt_trans hpos (not_le.mp hc)
    have hlen : 0 < d.cards.length := by omega
    have hne : d.cards ≠ [] := by
      intro hnil
      rw [hnil] at hlen
      simp at hlen
    have hs := List.getLast?_isSome.mpr hne
    cases hgl : d.cards.getLast? with
    | none => rw [hgl] at hs; simp at hs
    | some c => simp

/-- A well-stocked shoe state used as witness input. -/
def d0 : Deck :=
  { cards := List.replicate 150 { suit := .diamond, rank := .R2 }
    shuffle_point := 75
    rand := fun _ => r1
    ridx := 0 }

/-- Witness for C9 at a concrete shoe state. -/
theorem draw_card_never_fails_witness :
    (60 ≤ d0.shuffle_point ∧ d0.shuffle_point ≤ 85) ∧
      (0 < (numDecks * 52 : Int) * (100 - (d0.shuffle_point : Int)) ∧
        (draw_card d0).isSome = true) :=
  ⟨⟨by norm_num [d0], by norm_num [d0]⟩,
    draw_card_never_fails d0 (by norm_num [d0]) (by norm_num [d0])⟩

/-! ### Hands (`class Hand`) -/

/-- The state of `class Hand`: the card list, the running `value`, and the
count `aces` of aces still counted as 11. -/
structure Hand where
  cards : List Card
  value : Nat
  aces : Nat
deriving DecidableEq

/-- Source `Hand.__init__`. -/
def Hand.init : Hand := { cards := [], value := 0, aces := 0 }

/-- The `while self.value > 21 and self.aces:` loop of
`Hand.ace_adjustment`, on the pair (value, aces): each iteration demotes one
ace from 11 to 1 (`value -= 10; aces -= 1`). -/
def ace_adjustment (v : Nat) : Nat → Nat × Nat
  | 0 => (v, 0)
  | a + 1 => if 21 < v then ace_adjustment (v - 10) a else (v, a + 1)

/-- Source `Hand.add_card`: append the card, add its value, bump the ace count on
an ace, then run `ace_adjustment`. -/
def add_card (h : Hand) (c : Card) : Hand :=
  let v := h.value + c.value
  let a := if c.rank = Rank.A then h.aces + 1 else h.aces
  { cards := h.cards ++ [c]
    value := (ace_adjustment v a).1
    aces := (ace_adjustment v a).2 }

/-- Source `Hand.is_bust`. -/
def Hand.is_bust (h : Hand) : Bool := 21 < h.value

/-- Source `Hand.is_blackjack`: exactly two cards, one with rank ace and one other
card of value 10 (the `elif` of the source skips ace-ranked cards when
looking for the ten-valued card). -/
def Hand.is_blackjack (h : Hand) : Bool :=
  if h.cards.length = 2 then
    (h.cards.any fun c => decide (c.rank = Rank.A)) &&
      (h.cards.any fun c => decide (c.rank ≠ Rank.A ∧ c.value = 10))
  else false

/-- A hand obtained by adding the given cards in order to a fresh hand. -/
def buildHand (cs : List Card) : Hand := cs.foldl add_card Hand.init

/-! ### The specification-side hand value (C2) -/

/-- The value a card contributes when every ace is counted as 1. -/
def minCardValue (c : Card) : Nat := if c.rank = Rank.A then 1 else c.value

/-- The minimal total of a card list: every ace counted as 1. -/
def minTotal (cs : List Card) : Nat := (cs.map minCardValue).sum

/-- The number of aces held. -/
def numAces (cs : List Card) : Nat :=
  (cs.filter fun c => decide (c.rank = Rank.A)).length

/-- Modelled from the words of the claim: the maximum total ≤ 21 achievable by
assigning each of `n` held aces a value in {1, 11} — i.e. the largest
`m + 10 * j` with `j ≤ n` that stays ≤ 21 — or the minimal total `m` when
every assignment exceeds 21. -/
def bestAceTotal (m : Nat) : Nat → Nat
  | 0 => m
  | j + 1 => if m + 10 * (j + 1) ≤ 21 then m + 10 * (j + 1) else bestAceTotal m j

/-- The hand value described by the claim: best {1,11}-assignment total of the held cards. -/
def handSpecValue (cs : List Card) : Nat := bestAceTotal (minTotal cs) (numAces cs)

theorem ace_adjustment_linear (a v : Nat) :
    (ace_adjustment v a).1 + 10 * a = v + 10 * (ace_adjustment v a).2 := by
  induction a generalizing v with
  | zero => simp [ace_adjustment]
  | succ a ih =>
    rw [ace_adjustment]
    by_cases hv : 21 < v
    · rw [if_pos hv]
      have := ih (v - 10)
      omega
    · rw [if_neg hv]

theorem ace_adjustment_le (a v : Nat) : (ace_adjustment v a).2 ≤ a := by
  induction a generalizing v with
  | zero => simp [ace_adjustment]
  | succ a ih =>
    rw [ace_adjustment]
    by_cases hv : 21 < v
    · rw [if_pos hv]
      exact le_trans (ih (v - 10)) (Nat.le_succ a)
    · rw [if_neg hv]

theorem ace_adjustment_bust (a v : Nat) :
    21 < (ace_adjustment v a).1 → (ace_adjustment v a).2 = 0 := by
  induction a generalizing v with
  | zero => simp [ace_adjustment]
  | succ a ih =>
    rw [ace_adjustment]
    by_cases hv : 21 < v
    · rw [if_pos hv]
      exact ih (v - 10)
    · rw [if_neg hv]
      intro hcon
      exact absurd hcon hv

theorem ace_adjustment_demoted (a v : Nat) :
    (ace_adjustment v a).2 < a → 12 ≤ (ace_adjustment v a).1 := by
  induction a generalizing v with
  | zero => simp [ace_adjustment]
  | succ a ih =>
    rw [ace_adjustment]
    by_cases hv : 21 < v
    · rw [if_pos hv]
      intro _
      by_cases hlt : (ace_adjustment (v - 10) a).2 < a
      · exact ih (v - 10) hlt
      · have heq : (ace_adjustment (v - 10) a).2 = a :=
          le_antisymm (ace_adjustment_le a (v - 10)) (le_of_not_lt hlt)
        have hlin := ace_adjustment_linear a (v - 10)
        omega
    · rw [if_neg hv]
      intro hcon
      omega

/-- The running invariant of `Hand.add_card` / `Hand.ace_adjustment`. -/
theorem buildHand_invariant (cs : List Card) :
    (buildHand cs).value = minTotal cs + 10 * (buildHand cs).aces ∧
      (buildHand cs).aces ≤ numAces cs ∧
      (21 < (buildHand cs).value → (buildHand cs).aces = 0) ∧
      ((buildHand cs).aces < numAces cs → 12 ≤ (buildHand cs).value) := by
  induction cs using List.reverseRecOn with
  | nil => simp [buildHand, Hand.init, minTotal, numAces]
  | append_singleton l c ih =>
    have hbuild : buildHand (l ++ [c]) = add_card (buildHand l) c := by
      simp [buildHand, List.foldl_append]
    obtain ⟨ih1, ih2, ih3, ih4⟩ := ih
    have hmt : minTotal (l ++ [c]) = minTotal l + minCardValue c := by
      simp [minTotal]
    have hna : numAces (l ++ [c]) =
        numAces l + (if c.rank = Rank.A then 1 else 0) := by
      by_cases hA : c.rank = Rank.A <;>
        simp [numAces, List.filter_append, hA]
    set h := buildHand l with hh
    rw [hbuild]
    unfold add_card
    set v := h.value + c.value with hv
    set a := (if c.rank = Rank.A then h.aces + 1 else h.aces) with ha
    simp only
    have hv0 : v = minTotal (l ++ [c]) + 10 * a := by
      rw [hv, ha, hmt, ih1]
      by_cases hA : c.rank = Rank.A
      · have hcv : c.value = 11 := by
          simp [Card.value, Card.get_value, hA]
        have hmc : minCardValue c = 1 := by simp [minCardValue, hA]
        simp only [if_pos hA]
        omega
      · have hmc : minCardValue c = c.value := by simp [minCardValue, hA]
        simp only [if_neg hA]
        omega
    have hlin := ace_adjustment_linear a v
    have hle := ace_adjustment_le a v
    refine ⟨by omega, ?_, ace_adjustment_bust a v, ?_⟩
    · have hana : a ≤ numAces (l ++ [c]) := by
        rw [hna, ha]
        by_cases hA : c.rank = Rank.A
        · simp only [if_pos hA]
          omega
        · simp only [if_neg hA]
          omega
      omega
    · intro hlt
      by_cases hda : (ace_adjustment v a).2 < a
      · exact ace_adjustment_demoted a v hda
      · have heq : (ace_adjustment v a).2 = a := by omega
        have h12 : 12 ≤ h.value := by
          apply ih4
          rw [heq, hna, ha] at hlt
          by_cases hA : c.rank = Rank.A
          · simp only [if_pos hA] at hlt
            omega
          · simp only [if_neg hA] at hlt
            omega
        have hcv : (ace_adjustment v a).1 = v := by omega
        omega

theorem bestAceTotal_high (m : Nat) (hm : 21 < m) (n : Nat) :
    bestAceTotal m n = m := by
  induction n with
  | zero => rfl
  | succ n ih =>
    rw [bestAceTotal]
    rw [if_neg (by omega)]
    exact ih

theorem bestAceTotal_exact (m a : Nat) (n : Nat) (han : a ≤ n)
    (hle : m + 10 * a ≤ 21)
    (hmax : ∀ j, a < j → j ≤ n → 21 < m + 10 * j) :
    bestAceTotal m n = m + 10 * a := by
  induction n with
  | zero =>
    have : a = 0 := by omega
    subst this
    simp [bestAceTotal]
  | succ n ih =>
    rw [bestAceTotal]
    by_cases hat : a = n + 1
    · subst hat
      rw [if_pos (by omega)]
    · have han' : a ≤ n := by omega
      rw [if_neg (by have := hmax (n + 1) (by omega) (by omega); omega)]
      exact ih han' fun j hj hjn => hmax j hj (by omega)

/-! ### C2 -/

/-- C2: for every sequence of cards added via `add_card`, the hand's
`value` field equals the maximum total ≤ 21 achievable by assigning each
held ace a value in {1, 11}, or the minimal all-aces-as-1 total when every
assignment exceeds 21. -/
theorem hand_value_best_ace_total (cs : List Card) :
    (buildHand cs).value = handSpecValue cs := by
  obtain ⟨h1, h2, h3, h4⟩ := buildHand_invariant cs
  unfold handSpecValue
  by_cases hbust : 21 < (buildHand cs).value
  · have ha0 := h3 hbust
    rw [ha0] at h1
    simp at h1
    rw [← h1]
    exact (bestAceTotal_high _ (by omega) _).symm
  · rw [h1]
    refine (bestAceTotal_exact _ _ _ h2 (by omega) ?_).symm
    intro j hj hjn
    have hlt : (buildHand cs).aces < numAces cs := lt_of_lt_of_le hj hjn
    have := h4 hlt
    omega

/-! ### The account (`class Account`) -/

/-- The session ledger of `class Account` (user profile fields omitted:
they never interact with the game engine). -/
structure Account where
  /-- spendable funds, in cents -/
  balance : Int
  /-- cumulative amount wagered, in cents -/
  bet : Int
  /-- signed net earnings, in cents -/
  net_earnings : Int
  games_played : Nat
  games_won : Nat
  /-- cumulative amount deposited, in cents -/
  deposited : Int
deriving DecidableEq

/-- Source `Account.place_bet`: debit the balance, record the wager and debit net
earnings when funds suffice, reporting success; otherwise leave the account
untouched and report failure. -/
def Account.place_bet (a : Account) (amount : Int) : Bool × Account :=
  if a.balance ≥ amount then
    (true,
      { a with
        balance := a.balance - amount
        bet := a.bet + amount
        net_earnings := a.net_earnings - amount })
  else (false, a)

/-- Source `Account.game_won`. -/
def Account.game_won (a : Account) (amount : Int) : Account :=
  { a with
    balance := a.balance + amount
    net_earnings := a.net_earnings + amount
    games_won := a.games_won + 1 }

/-! ### Payoff computation -/

/-- The outcome strings passed to `calculate_payoff` ("push" / "win"); any
other outcome (a loss) falls through the function unchanged. -/
inductive Outcome
  | push | win | loss
deriving DecidableEq

/-- Source `round(2.5 * bet, 2)` on cent amounts: `2.5 × bet` dollars is
`5 * bet / 2` cents; a half-cent tie rounds to the even cent (the Python
round-half-to-even rule), given here applied to `n = 5 * bet`. -/
def round_half_cent (n : Int) : Int :=
  if n % 2 = 0 then n / 2
  else if (n / 2) % 2 = 0 then n / 2 else n / 2 + 1

/-- Source `calculate_payoff(bet, outcome, account, hand, split=0)`. -/
def calculate_payoff (bet : Int) (outcome : Outcome) (account : Account)
    (hand : Hand) (split : Nat) : Account :=
  match outcome with
  | .push =>
    { account with
      balance := account.balance + bet
      net_earnings := account.net_earnings + bet }
  | .win =>
    if hand.is_blackjack && decide (split = 0) then
      { account with
        games_won := account.games_won + 1
        balance := account.balance + round_half_cent (5 * bet)
        net_earnings := account.net_earnings + round_half_cent (5 * bet) }
    else account.game_won (2 * bet)
  | .loss => account

/-- The outcome messages returned by `check_winner` (display strings
abstracted to an enumeration). -/
inductive RoundMsg
  | playerWins | dealerWins | pushMsg
deriving DecidableEq

/-- Source `check_winner(hand, d_hand, account, bet, split=0)`: settle a finished
hand against the dealer and return the message. -/
def check_winner (hand d_hand : Hand) (account : Account) (bet : Int)
    (split : Nat) : Account × RoundMsg :=
  if d_hand.value < hand.value then
    (calculate_payoff bet .win account hand split, .playerWins)
  else if hand.value < d_hand.value then (account, .dealerWins)
  else (calculate_payoff bet .push account hand split, .pushMsg)

/-! ### C4 -/

/-- C4: `place_bet` debits the balance and records the wager exactly when
`balance >= amount` and reports whether it did; on failure the account is
returned unchanged (and, being a total function, it never raises). -/
theorem place_bet_spec (a : Account) (amount : Int) :
    ((a.place_bet amount).1 = true ↔ a.balance ≥ amount) ∧
      (a.place_bet amount).2 =
        (if a.balance ≥ amount then
          { a with
            balance := a.balance - amount
            bet := a.bet + amount
            net_earnings := a.net_earnings - amount }
         else a) := by
  by_cases hc : a.balance ≥ amount <;>
    simp [Account.place_bet, hc]

/-! ### C5 -/

/-- C5: `calculate_payoff` depends only on (outcome, bet, blackjack status,
split flag) and produces exactly the claimed balance deltas — push `+bet`,
natural-blackjack un-split win `+round(2.5×bet, 2)` (in cents: `round_half_cent (5×bet)`), any other win
`+2×bet`, loss `+0` — and bumps the win counter exactly on wins. -/
theorem calculate_payoff_spec (bet : Int) (acct : Account) (h h2 : Hand)
    (s : Nat) (hbj : h.is_blackjack = h2.is_blackjack) :
    (∀ outcome, calculate_payoff bet outcome acct h s
        = calculate_payoff bet outcome acct h2 s) ∧
      (calculate_payoff bet .push acct h s).balance = acct.balance + bet ∧
      (calculate_payoff bet .win acct h s).balance = acct.balance +
        (if h.is_blackjack = true ∧ s = 0 then round_half_cent (5 * bet)
         else 2 * bet) ∧
      calculate_payoff bet .loss acct h s = acct ∧
      (calculate_payoff bet .win acct h s).games_won = acct.games_won + 1 ∧
      (calculate_payoff bet .push acct h s).games_won = acct.games_won ∧
      (calculate_payoff bet .loss acct h s).games_won = acct.games_won := by
  refine ⟨?_, ?_, ?_, ?_, ?_, ?_, ?_⟩
  · intro outcome
    cases outcome with
    | push => rfl
    | win => simp [calculate_payoff, hbj]
    | loss => rfl
  · simp [calculate_payoff]
  · by_cases hb : h.is_blackjack = true
    · by_cases hs : s = 0
      · simp [calculate_payoff, hb, hs]
      · simp [calculate_payoff, hb, hs, Account.game_won]
    · simp [calculate_payoff, hb, Account.game_won]
  · rfl
  · by_cases hb : h.is_blackjack = true
    · by_cases hs : s = 0
      · simp [calculate_payoff, hb, hs]
      · simp [calculate_payoff, hb, hs, Account.game_won]
    · simp [calculate_payoff, hb, Account.game_won]
  · simp [calculate_payoff]
  · rfl

/-- Cards and an account used as concrete witness inputs. -/
def cardAS : Card := { suit := .spade, rank := .A }

def cardKS : Card := { suit := .spade, rank := .K }

/-- A natural two-card blackjack hand. -/
def handBJ : Hand := buildHand [cardAS, cardKS]

def acct0 : Account :=
  { balance := 5000, bet := 0, net_earnings := 0
    games_played := 0, games_won := 0, deposited := 0 }

/-- Witness for C5 at a concrete hand and account. -/
theorem calculate_payoff_spec_witness :
    handBJ.is_blackjack = handBJ.is_blackjack ∧
      (calculate_payoff 1000 .push acct0 handBJ 0).balance = acct0.balance + 1000 :=
  ⟨rfl, (calculate_payoff_spec 1000 acct0 handBJ handBJ 0 rfl).2.1⟩

/-! ### C6 -/

theorem value_ten_ne_ace (c : Card) (hv : c.value = 10) : c.rank ≠ Rank.A := by
  intro hA
  simp [Card.value, Card.get_value, hA] at hv

/-- C6: a hand satisfies `is_blackjack` iff it holds exactly two cards, one
an ace and the other ten-valued; and a hand settled with a nonzero split
flag is paid as an ordinary win (`game_won (2×bet)`) even when
`is_blackjack` holds, so split sub-hands are never blackjack-eligible. -/
theorem is_blackjack_spec :
    (∀ h : Hand, h.is_blackjack = true ↔
      ∃ a b, h.cards = [a, b] ∧
        ((a.rank = Rank.A ∧ b.value = 10) ∨ (b.rank = Rank.A ∧ a.value = 10))) ∧
      ∀ (bet : Int) (acct : Account) (h : Hand) (s : Nat),
        calculate_payoff bet .win acct h (s + 1) = acct.game_won (2 * bet) := by
  constructor
  · intro h
    unfold Hand.is_blackjack
    by_cases hlen : h.cards.length = 2
    · rw [if_pos hlen]
      obtain ⟨a, b, hab⟩ := List.length_eq_two.mp hlen
      rw [hab]
      simp only [List.any_cons, List.any_nil, Bool.or_false,
        Bool.and_eq_true, Bool.or_eq_true, decide_eq_true_eq]
      constructor
      · rintro ⟨hace, hten⟩
        refine ⟨a, b, rfl, ?_⟩
        rcases hace with hace | hace
        · rcases hten with ⟨hna, _⟩ | ⟨_, hbv⟩
          · exact absurd hace hna
          · exact Or.inl ⟨hace, hbv⟩
        · rcases hten with ⟨_, hav⟩ | ⟨hnb, _⟩
          · exact Or.inr ⟨hace, hav⟩
          · exact absurd hace hnb
      · rintro ⟨a', b', heq, hd⟩
        obtain ⟨ha', hb'⟩ : a = a' ∧ b = b' := by
          simpa using heq
        subst ha'
        subst hb'
        rcases hd with ⟨hace, hbv⟩ | ⟨hace, hav⟩
        · exact ⟨Or.inl hace, Or.inr ⟨value_ten_ne_ace b hbv, hbv⟩⟩
        · exact ⟨Or.inr hace, Or.inl ⟨value_ten_ne_ace a hav, hav⟩⟩
    · rw [if_neg hlen]
      constructor
      · intro hcon
        exact absurd hcon (by simp)
      · rintro ⟨a, b, hab, _⟩
        exact absurd (by rw [hab]; rfl) hlen
  · intro bet acct h s
    simp [calculate_payoff]

/-! ### The round engine -/

/-- Abnormal terminations of the embedded round engine. -/
inductive Err
  /-- Python `list.pop()` on an empty list / a missing card index raised -/
  | popEmpty
  /-- the fuel bound of a dealer loop was exhausted -/
  | outOfFuel
  /-- the supplied bet/action would have been rejected and re-prompted -/
  | noDecision
  /-- Python `UnboundLocalError`: a message read before assignment -/
  | unboundLocal
deriving DecidableEq

/-- The four player action codes H / S / D / L of the source. -/
inductive PlayerAction
  | H | S | D | L
deriving DecidableEq

/-- Source `get_bet`: the accepted wager must be at least $2 (200 cents) and is
placed through `place_bet`; an attempt the source would re-prompt is
`noDecision`. -/
def get_bet (bet : Int) (account : Account) : Except Err (Int × Account) :=
  if bet < 200 then .error .noDecision
  else
    match account.place_bet bet with
    | (true, a) => .ok (bet, a)
    | (false, _) => .error .noDecision

/-- The account effect of `get_action` / `action_allowed` for the accepted
action: doubling and splitting place an additional wager equal to the
original bet; an unaffordable double/split would be re-prompted. -/
def get_action_eff (action : PlayerAction) (bet : Int) (account : Account) :
    Except Err Account :=
  match action with
  | .H | .S => .ok account
  | .D | .L =>
    match account.place_bet bet with
    | (true, a) => .ok a
    | (false, _) => .error .noDecision

/-- Source `split_allowed`: splitting is offered iff the two dealt cards have
equal point value. -/
def split_allowed (hand : Hand) : Bool :=
  match hand.cards with
  | c0 :: c1 :: _ => decide (c0.value = c1.value)
  | _ => false

/-- Source `hit`: draw; on bust return `false`; otherwise consume the next
hit/stand answer (`true` = hit again); an exhausted answer list stands. -/
def hit (chs : List Bool) (hand : Hand) (deck : Deck) :
    Except Err (Bool × Hand × Deck) :=
  match draw_card deck with
  | none => .error .popEmpty
  | some (c, deck') =>
    let hand' := add_card hand c
    if hand'.is_bust then .ok (false, hand', deck')
    else
      match chs with
      | [] => .ok (true, hand', deck')
      | choice :: rest =>
        if choice then hit rest hand' deck' else .ok (true, hand', deck')

/-- Source `dealer_play`: draw while the hand value is < 17; the Bool is `false`
exactly on a dealer bust.  `fuel` bounds the loop. -/
def dealer_play : Nat → Hand → Deck → Except Err (Bool × Hand × Deck)
  | 0, d_hand, deck =>
    if d_hand.value < 17 then .error .outOfFuel
    else .ok (true, d_hand, deck)
  | fuel + 1, d_hand, deck =>
    if d_hand.value < 17 then
      match draw_card deck with
      | none => .error .popEmpty
      | some (c, deck') =>
        let dh := add_card d_hand c
        if dh.is_bust then .ok (false, dh, deck')
        else dealer_play fuel dh deck'
    else .ok (true, d_hand, deck)

/-- Source `split_dealer_play`: the same dealer loop run once after a split. -/
def split_dealer_play : Nat → Hand → Deck → Except Err (Hand × Deck)
  | 0, d_hand, deck =>
    if d_hand.value < 17 then .error .outOfFuel
    else .ok (d_hand, deck)
  | fuel + 1, d_hand, deck =>
    if d_hand.value < 17 then
      match draw_card deck with
      | none => .error .popEmpty
      | some (c, deck') =>
        let dh := add_card d_hand c
        if dh.is_bust then .ok (dh, deck')
        else split_dealer_play fuel dh deck'
    else .ok (d_hand, deck)

/-- Source `play_split`: the turn of one split sub-hand (splitting again is refused).
The returned Bool is `true` exactly when the source returns `"D"` (a
successful, non-busted double). -/
def play_split (action : PlayerAction) (chs : List Bool) (hand : Hand)
    (deck : Deck) (bet : Int) (account : Account) :
    Except Err (Bool × Hand × Deck × Account) :=
  if action = PlayerAction.L then .error .noDecision
  else
    match get_action_eff action bet account with
    | .error e => .error e
    | .ok account' =>
      match action with
      | .H =>
        match hit chs hand deck with
        | .error e => .error e
        | .ok (_, hand', deck') => .ok (false, hand', deck', account')
      | .S => .ok (false, hand, deck, account')
      | .D =>
        match draw_card deck with
        | none => .error .popEmpty
        | some (c, deck') =>
          let hand' := add_card hand c
          if hand'.is_bust then .ok (false, hand', deck', account')
          else .ok (true, hand', deck', account')
      | .L => .error .noDecision

/-- Result of a completed split round. -/
inductive SplitResult
  /-- both sub-hands busted: the round ends before any dealer play -/
  | bothBust
  /-- the final print: one message per sub-hand -/
  | settled (m1 m2 : RoundMsg)
deriving DecidableEq

/-- The settlement tail of `split`, after both sub-hands were played and
the dealer acted: `message1` / `message2` start unassigned, are assigned
only for non-busted sub-hands, and are both read by the final print —
an unassigned read is `unboundLocal`. -/
def split_settle (dbl1 dbl2 : Bool) (h1 h2 dh : Hand) (deck : Deck)
    (bet : Int) (account : Account) :
    Except Err (SplitResult × Account × Deck) :=
  if dh.is_bust then
    let p1 :=
      if h1.is_bust = false then
        (some RoundMsg.playerWins,
          calculate_payoff (if dbl1 then bet * 2 else bet) .win account h1 1)
      else ((none : Option RoundMsg), account)
    let p2 :=
      if h2.is_bust = false then
        (some RoundMsg.playerWins,
          calculate_payoff (if dbl2 then bet * 2 else bet) .win p1.2 h2 1)
      else ((none : Option RoundMsg), p1.2)
    match p1.1, p2.1 with
    | some m1, some m2 => .ok (.settled m1 m2, p2.2, deck)
    | _, _ => .error .unboundLocal
  else
    let p1 :=
      if h1.is_bust = false then
        (let r := check_winner h1 dh account (if dbl1 then bet * 2 else bet) 1
         (some r.2, r.1))
      else ((none : Option RoundMsg), account)
    let p2 :=
      if h2.is_bust = false then
        (let r := check_winner h2 dh p1.2 (if dbl2 then bet * 2 else bet) 1
         (some r.2, r.1))
      else ((none : Option RoundMsg), p1.2)
    match p1.1, p2.1 with
    | some m1, some m2 => .ok (.settled m1 m2, p2.2, deck)
    | _, _ => .error .unboundLocal

/-- The decisions consumed by the two sub-hands of a split. -/
structure SplitDecs where
  a1 : PlayerAction
  hits1 : List Bool
  a2 : PlayerAction
  hits2 : List Bool

/-- Source `split`: bump `games_played`, separate the two dealt cards, deal one
more card to each sub-hand, play both sub-hands, then (unless both busted)
run the dealer once and settle both. -/
def split (fuel : Nat) (sd : SplitDecs) (hand dealer_hand : Hand)
    (deck : Deck) (bet : Int) (account : Account) :
    Except Err (SplitResult × Account × Deck) :=
  let account0 := { account with games_played := account.games_played + 1 }
  match hand.cards with
  | c0 :: c1 :: _ =>
    match draw_card deck with
    | none => .error .popEmpty
    | some (d1, deck1) =>
      match draw_card deck1 with
      | none => .error .popEmpty
      | some (d2, deck2) =>
        let h1 := add_card (add_card Hand.init c0) d1
        let h2 := add_card (add_card Hand.init c1) d2
        match play_split sd.a1 sd.hits1 h1 deck2 bet account0 with
        | .error e => .error e
        | .ok (dbl1, h1', deck3, account1) =>
          match play_split sd.a2 sd.hits2 h2 deck3 bet account1 with
          | .error e => .error e
          | .ok (dbl2, h2', deck4, account2) =>
            if h2'.is_bust = false ∨ h1'.is_bust = false then
              match split_dealer_play fuel dealer_hand deck4 with
              | .error e => .error e
              | .ok (dh', deck5) =>
                split_settle dbl1 dbl2 h1' h2' dh' deck5 bet account2
            else .ok (.bothBust, account2, deck4)
  | _ => .error .popEmpty

/-- The player decisions one embedded round consumes. -/
structure Decisions where
  /-- the accepted wager, in cents -/
  bet : Int
  action : PlayerAction
  hits : List Bool
  sd : SplitDecs

/-- The opening deal of `play_game`: player, dealer, player. -/
def dealt_hands (deck : Deck) : Option (Hand × Hand × Deck) :=
  match draw_card deck with
  | none => none
  | some (c1, deck1) =>
    match draw_card deck1 with
    | none => none
    | some (c2, deck2) =>
      match draw_card deck2 with
      | none => none
      | some (c3, deck3) =>
        some (add_card (add_card Hand.init c1) c3, add_card Hand.init c2, deck3)

/-- Source `play_game`: one full round, from the `games_played` bump and the
wager through the deal, the player action, dealer play and settlement. -/
def play_game (fuel : Nat) (dec : Decisions) (account : Account)
    (deck : Deck) : Except Err (Account × Deck) :=
  let account1 := { account with games_played := account.games_played + 1 }
  match get_bet dec.bet account1 with
  | .error e => .error e
  | .ok (bet, account2) =>
    match dealt_hands deck with
    | none => .error .popEmpty
    | some (player_hand, dealer_hand, deck1) =>
      if player_hand.is_blackjack then
        match dealer_play fuel dealer_hand deck1 with
        | .error e => .error e
        | .ok (alive, dh', deck2) =>
          if alive = false then
            .ok (calculate_payoff bet .win account2 player_hand 0, deck2)
          else .ok ((check_winner player_hand dh' account2 bet 0).1, deck2)
      else if dec.action = PlayerAction.L ∧ split_allowed player_hand = false then
        .error .noDecision
      else
        match get_action_eff dec.action bet account2 with
        | .error e => .error e
        | .ok account3 =>
          match dec.action with
          | .H =>
            match hit dec.hits player_hand deck1 with
            | .error e => .error e
            | .ok (stood, ph', deck2) =>
              if stood = false then .ok (account3, deck2)
              else
                match dealer_play fuel dealer_hand deck2 with
                | .error e => .error e
                | .ok (alive, dh', deck3) =>
                  if alive = false then
                    .ok (calculate_payoff bet .win account3 ph' 0, deck3)
                  else .ok ((check_winner ph' dh' account3 bet 0).1, deck3)
          | .S =>
            match dealer_play fuel dealer_hand deck1 with
            | .error e => .error e
            | .ok (alive, dh', deck2) =>
              if alive = false then
                .ok (calculate_payoff bet .win account3 player_hand 0, deck2)
              else .ok ((check_winner player_hand dh' account3 bet 0).1, deck2)
          | .D =>
            match draw_card deck1 with
            | none => .error .popEmpty
            | some (c, deck2) =>
              let ph' := add_card player_hand c
              if ph'.is_bust then .ok (account3, deck2)
              else
                match dealer_play fuel dealer_hand deck2 with
                | .error e => .error e
                | .ok (alive, dh', deck3) =>
                  if alive = false then
                    .ok (calculate_payoff (bet * 2) .win account3 ph' 0, deck3)
                  else .ok ((check_winner ph' dh' account3 (bet * 2) 0).1, deck3)
          | .L =>
            match split fuel dec.sd player_hand dealer_hand deck1 bet account3 with
            | .error e => .error e
            | .ok (_, account4, deck2) => .ok (account4, deck2)

/-! ### C7 -/

theorem add_card_length (h : Hand) (c : Card) :
    (add_card h c).cards.length = h.cards.length + 1 := by
  simp [add_card]

theorem is_bust_iff (h : Hand) : h.is_bust = true ↔ 21 < h.value := by
  simp [Hand.is_bust]

theorem dealer_play_post (fuel : Nat) :
    ∀ (h : Hand) (d : Deck) (b : Bool) (h' : Hand) (d' : Deck),
      dealer_play fuel h d = .ok (b, h', d') →
        17 ≤ h'.value ∧ (b = false → h'.is_bust = true) ∧
          h.cards.length ≤ h'.cards.length := by
  induction fuel with
  | zero =>
    intro h d b h' d' hres
    by_cases hv : h.value < 17
    · simp [dealer_play, if_pos hv] at hres
    · simp only [dealer_play, if_neg hv, Except.ok.injEq, Prod.mk.injEq] at hres
      obtain ⟨hb, hh, _⟩ := hres
      subst hb
      subst hh
      refine ⟨by omega, ?_, le_refl _⟩
      intro hcon
      exact absurd hcon (by simp)
  | succ fuel ih =>
    intro h d b h' d' hres
    by_cases hv : h.value < 17
    · simp only [dealer_play, if_pos hv] at hres
      cases hdc : draw_card d with
      | none => rw [hdc] at hres; simp at hres
      | some cd =>
        obtain ⟨c, d2⟩ := cd
        rw [hdc] at hres
        simp only at hres
        by_cases hb2 : (add_card h c).is_bust
        · rw [if_pos hb2] at hres
          simp only [Except.ok.injEq, Prod.mk.injEq] at hres
          obtain ⟨_, hh, _⟩ := hres
          subst hh
          have hbust : 21 < (add_card h c).value := (is_bust_iff _).mp hb2
          refine ⟨by omega, fun _ => hb2, ?_⟩
          rw [add_card_length]
          omega
        · rw [if_neg hb2] at hres
          obtain ⟨h17, hbf, hlen⟩ := ih (add_card h c) d2 b h' d' hres
          refine ⟨h17, hbf, ?_⟩
          rw [add_card_length] at hlen
          omega
    · simp only [dealer_play, if_neg hv, Except.ok.injEq, Prod.mk.injEq] at hres
      obtain ⟨hb, hh, _⟩ := hres
      subst hb
      subst hh
      refine ⟨by omega, ?_, le_refl _⟩
      intro hcon
      exact absurd hcon (by simp)

theorem dealer_play_stands (fuel : Nat) (h : Hand) (d : Deck)
    (hv : ¬ h.value < 17) : dealer_play fuel h d = .ok (true, h, d) := by
  cases fuel <;> simp [dealer_play, hv]

theorem dealer_play_draws (fuel : Nat) (h : Hand) (d : Deck) (b : Bool)
    (h' : Hand) (d' : Deck) (hres : dealer_play fuel h d = .ok (b, h', d'))
    (hv : h.value < 17) : h.cards.length < h'.cards.length := by
  cases fuel with
  | zero => simp [dealer_play, if_pos hv] at hres
  | succ fuel =>
    simp only [dealer_play, if_pos hv] at hres
    cases hdc : draw_card d with
    | none => rw [hdc] at hres; simp at hres
    | some cd =>
      obtain ⟨c, d2⟩ := cd
      rw [hdc] at hres
      simp only at hres
      by_cases hb2 : (add_card h c).is_bust
      · rw [if_pos hb2] at hres
        simp only [Except.ok.injEq, Prod.mk.injEq] at hres
        obtain ⟨_, hh, _⟩ := hres
        rw [← hh, add_card_length]
        omega
      · rw [if_neg hb2] at hres
        have hlen := (dealer_play_post fuel _ _ _ _ _ hres).2.2
        rw [add_card_length] at hlen
        omega

theorem split_dealer_play_post (fuel : Nat) :
    ∀ (h : Hand) (d : Deck) (h' : Hand) (d' : Deck),
      split_dealer_play fuel h d = .ok (h', d') →
        17 ≤ h'.value ∧ h.cards.length ≤ h'.cards.length := by
  induction fuel with
  | zero =>
    intro h d h' d' hres
    by_cases hv : h.value < 17
    · simp [split_dealer_play, if_pos hv] at hres
    · simp only [split_dealer_play, if_neg hv, Except.ok.injEq,
        Prod.mk.injEq] at hres
      obtain ⟨hh, _⟩ := hres
      subst hh
      exact ⟨by omega, le_refl _⟩
  | succ fuel ih =>
    intro h d h' d' hres
    by_cases hv : h.value < 17
    · simp only [split_dealer_play, if_pos hv] at hres
      cases hdc : draw_card d with
      | none => rw [hdc] at hres; simp at hres
      | some cd =>
        obtain ⟨c, d2⟩ := cd
        rw [hdc] at hres
        simp only at hres
        by_cases hb2 : (add_card h c).is_bust
        · rw [if_pos hb2] at hres
          simp only [Except.ok.injEq, Prod.mk.injEq] at hres
          obtain ⟨hh, _⟩ := hres
          subst hh
          have hbust : 21 < (add_card h c).value := (is_bust_iff _).mp hb2
          refine ⟨by omega, ?_⟩
          rw [add_card_length]
          omega
        · rw [if_neg hb2] at hres
          obtain ⟨h17, hlen⟩ := ih (add_card h c) d2 h' d' hres
          refine ⟨h17, ?_⟩
          rw [add_card_length] at hlen
          omega
    · simp only [split_dealer_play, if_neg hv, Except.ok.injEq,
        Prod.mk.injEq] at hres
      obtain ⟨hh, _⟩ := hres
      subst hh
      exact ⟨by omega, le_refl _⟩

theorem split_dealer_play_stands (fuel : Nat) (h : Hand) (d : Deck)
    (hv : ¬ h.value < 17) : split_dealer_play fuel h d = .ok (h, d) := by
  cases fuel <;> simp [split_dealer_play, hv]

theorem split_dealer_play_draws (fuel : Nat) (h : Hand) (d : Deck)
    (h' : Hand) (d' : Deck) (hres : split_dealer_play fuel h d = .ok (h', d'))
    (hv : h.value < 17) : h.cards.length < h'.cards.length := by
  cases fuel with
  | zero => simp [split_dealer_play, if_pos hv] at hres
  | succ fuel =>
    simp only [split_dealer_play, if_pos hv] at hres
    cases hdc : draw_card d with
    | none => rw [hdc] at hres; simp at hres
    | some cd =>
      obtain ⟨c, d2⟩ := cd
      rw [hdc] at hres
      simp only at hres
      by_cases hb2 : (add_card h c).is_bust
      · rw [if_pos hb2] at hres
        simp only [Except.ok.injEq, Prod.mk.injEq] at hres
        obtain ⟨hh, _⟩ := hres
        rw [← hh, add_card_length]
        omega
      · rw [if_neg hb2] at hres
        have hlen := (split_dealer_play_post fuel _ _ _ _ hres).2
        rw [add_card_length] at hlen
        omega

/-- C7: dealer auto-play (both `dealer_play` and `split_dealer_play`)
draws exactly while the hand value — computed with the standard soft/hard
ace rule — is below 17: every run that returns stopped at value ≥ 17, a
hand already at ≥ 17 (such as a soft 17) stands immediately with nothing
drawn, a hand below 17 (such as a 16) must draw at least one card, and the
`false` result is returned exactly on a dealer bust. -/
theorem dealer_play_policy
    (fuel : Nat) (h : Hand) (d : Deck) (b : Bool) (h' : Hand) (d' : Deck)
    (fuel2 : Nat) (g : Hand) (e : Deck) (g' : Hand) (e' : Deck)
    (hres : dealer_play fuel h d = .ok (b, h', d'))
    (hres2 : split_dealer_play fuel2 g e = .ok (g', e')) :
    (17 ≤ h'.value ∧
      (17 ≤ h.value → b = true ∧ h' = h ∧ d' = d) ∧
      (h.value < 17 → h.cards.length < h'.cards.length) ∧
      (b = false → h'.is_bust = true)) ∧
    (17 ≤ g'.value ∧
      (17 ≤ g.value → g' = g ∧ e' = e) ∧
      (g.value < 17 → g.cards.length < g'.cards.length)) := by
  obtain ⟨hp1, hp2, _⟩ := dealer_play_post fuel h d b h' d' hres
  obtain ⟨hq1, _⟩ := split_dealer_play_post fuel2 g e g' e' hres2
  constructor
  · refine ⟨hp1, ?_, fun hv => dealer_play_draws fuel h d b h' d' hres hv, hp2⟩
    intro h17
    have hst := dealer_play_stands fuel h d (by omega)
    have hcomb := hst.symm.trans hres
    simp only [Except.ok.injEq, Prod.mk.injEq] at hcomb
    exact ⟨hcomb.1.symm, hcomb.2.1.symm, hcomb.2.2.symm⟩
  · refine ⟨hq1, ?_, fun hv => split_dealer_play_draws fuel2 g e g' e' hres2 hv⟩
    intro h17
    have hst := split_dealer_play_stands fuel2 g e (by omega)
    have hcomb := hst.symm.trans hres2
    simp only [Except.ok.injEq, Prod.mk.injEq] at hcomb
    exact ⟨hcomb.1.symm, hcomb.2.symm⟩

/-- The soft-17 hand [A♠, 6♠]. -/
def c6S : Card := { suit := .spade, rank := .R6 }

def handA6 : Hand := buildHand [cardAS, c6S]

/-- Witness for C7: a soft 17 stands immediately under both dealer loops. -/
theorem dealer_play_policy_witness :
    (dealer_play 3 handA6 d0 = .ok (true, handA6, d0) ∧
      split_dealer_play 3 handA6 d0 = .ok (handA6, d0)) ∧
    ((17 ≤ handA6.value ∧
        (17 ≤ handA6.value → true = true ∧ handA6 = handA6 ∧ d0 = d0) ∧
        (handA6.value < 17 → handA6.cards.length < handA6.cards.length) ∧
        (true = false → handA6.is_bust = true)) ∧
      (17 ≤ handA6.value ∧
        (17 ≤ handA6.value → handA6 = handA6 ∧ d0 = d0) ∧
        (handA6.value < 17 → handA6.cards.length < handA6.cards.length))) :=
  ⟨⟨rfl, rfl⟩,
    dealer_play_policy 3 handA6 d0 true handA6 d0 3 handA6 d0 handA6 d0 rfl rfl⟩

/-! ### C3 -/

def c9S : Card := { suit := .spade, rank := .R9 }

def c9D : Card := { suit := .diamond, rank := .R9 }

def c5S : Card := { suit := .spade, rank := .R5 }

def c5H : Card := { suit := .heart, rank := .R5 }

def cKH : Card := { suit := .heart, rank := .K }

def c9H : Card := { suit := .heart, rank := .R9 }

def cTS : Card := { suit := .spade, rank := .R10 }

def c2D : Card := { suit := .diamond, rank := .R2 }

/-- The pre-split player hand [9♠, 9♦]. -/
def hand99 : Hand := buildHand [c9S, c9D]

/-- The one-card dealer hand [10♠]. -/
def hand10 : Hand := buildHand [cTS]

/-- A shoe arranged (top = end of the list) to deal: 5♠ to sub-hand 1,
5♥ to sub-hand 2, 6♠ to the hit of sub-hand 1 (→ 20), K♥ to the hit of sub-hand 2
(→ 24, bust), then 9♥ to the dealer (→ 19). -/
def deck3 : Deck :=
  { cards := List.replicate 145 c2D ++ [c9H, cKH, c6S, c5H, c5S]
    shuffle_point := 60
    rand := fun _ => r1
    ridx := 0 }

/-- The C3 scenario decisions: hit once then stand on sub-hand 1; hit
(and bust) on sub-hand 2. -/
def sd3 : SplitDecs :=
  { a1 := .H, hits1 := [false], a2 := .H, hits2 := [false] }

set_option maxRecDepth 20000 in
/-- C3 (code bug witness): in the claimed scenario — sub-hand 1 stands at
20, sub-hand 2 busts, the dealer finishes at 19 — the split routine does
not complete: the final outcome print reads the never-assigned `message2`,
i.e. Python raises `UnboundLocalError`. -/
theorem split_one_bust_unbound_message :
    split 3 sd3 hand99 hand10 deck3 1000 acct0 = .error .unboundLocal := by
  rfl

/-! ### C8 helper lemmas -/

theorem place_bet_games_played (a : Account) (amt : Int) :
    (a.place_bet amt).2.games_played = a.games_played := by
  by_cases hc : a.balance ≥ amt <;> simp [Account.place_bet, hc]

theorem get_bet_games_played (b : Int) (a : Account) (bet : Int) (a' : Account)
    (hres : get_bet b a = .ok (bet, a')) :
    a'.games_played = a.games_played := by
  unfold get_bet at hres
  by_cases hb : b < 200
  · rw [if_pos hb] at hres
    simp at hres
  · rw [if_neg hb] at hres
    have hpb := place_bet_games_played a b
    cases hmk : a.place_bet b with
    | mk success acc =>
      rw [hmk] at hres hpb
      cases success
      · simp at hres
      · simp only [Except.ok.injEq, Prod.mk.injEq] at hres
        obtain ⟨-, hacc⟩ := hres
        rw [← hacc]
        exact hpb

theorem get_action_eff_games_played (act : PlayerAction) (bet : Int)
    (a a' : Account) (hres : get_action_eff act bet a = .ok a') :
    a'.games_played = a.games_played := by
  have hpb := place_bet_games_played a bet
  cases act <;> simp only [get_action_eff] at hres
  case H =>
    simp at hres
    rw [← hres]
  case S =>
    simp at hres
    rw [← hres]
  case D =>
    cases hmk : a.place_bet bet with
    | mk success acc =>
      rw [hmk] at hres hpb
      cases success
      · simp at hres
      · simp at hres
        rw [← hres]
        exact hpb
  case L =>
    cases hmk : a.place_bet bet with
    | mk success acc =>
      rw [hmk] at hres hpb
      cases success
      · simp at hres
      · simp at hres
        rw [← hres]
        exact hpb

theorem calculate_payoff_games_played (bet : Int) (o : Outcome) (a : Account)
    (h : Hand) (s : Nat) :
    (calculate_payoff bet o a h s).games_played = a.games_played := by
  cases o with
  | push => rfl
  | loss => rfl
  | win =>
    by_cases hb : (h.is_blackjack && decide (s = 0)) = true
    · simp [calculate_payoff, hb]
    · simp only [calculate_payoff]
      rw [if_neg hb]
      simp [Account.game_won]

theorem check_winner_games_played (h dh : Hand) (a : Account) (bet : Int)
    (s : Nat) : (check_winner h dh a bet s).1.games_played = a.games_played := by
  unfold check_winner
  by_cases h1 : dh.value < h.value
  · rw [if_pos h1]
    exact calculate_payoff_games_played bet .win a h s
  · rw [if_neg h1]
    by_cases h2 : h.value < dh.value
    · rw [if_pos h2]
    · rw [if_neg h2]
      exact calculate_payoff_games_played bet .push a h s

theorem play_split_games_played (act : PlayerAction) (chs : List Bool)
    (h : Hand) (d : Deck) (bet : Int) (a : Account) (dbl : Bool) (h' : Hand)
    (d' : Deck) (a' : Account)
    (hres : play_split act chs h d bet a = .ok (dbl, h', d', a')) :
    a'.games_played = a.games_played := by
  unfold play_split at hres
  by_cases hL : act = PlayerAction.L
  · rw [if_pos hL] at hres
    simp at hres
  · rw [if_neg hL] at hres
    cases hga : get_action_eff act bet a with
    | error e => rw [hga] at hres; simp at hres
    | ok a2 =>
      rw [hga] at hres
      have h2 := get_action_eff_games_played act bet a a2 hga
      cases act with
      | H =>
        simp only at hres
        cases hh : hit chs h d with
        | error e => rw [hh] at hres; simp at hres
        | ok r =>
          obtain ⟨st, hh', dd'⟩ := r
          rw [hh] at hres
          simp only [Except.ok.injEq, Prod.mk.injEq] at hres
          obtain ⟨-, -, -, ha⟩ := hres
          rw [← ha]
          exact h2
      | S =>
        simp only [Except.ok.injEq, Prod.mk.injEq] at hres
        obtain ⟨-, -, -, ha⟩ := hres
        rw [← ha]
        exact h2
      | D =>
        simp only at hres
        cases hdc : draw_card d with
        | none => rw [hdc] at hres; simp at hres
        | some p =>
          obtain ⟨c, d2⟩ := p
          rw [hdc] at hres
          simp only at hres
          by_cases hbu : (add_card h c).is_bust
          · rw [if_pos hbu] at hres
            simp only [Except.ok.injEq, Prod.mk.injEq] at hres
            obtain ⟨-, -, -, ha⟩ := hres
            rw [← ha]
            exact h2
          · rw [if_neg hbu] at hres
            simp only [Except.ok.injEq, Prod.mk.injEq] at hres
            obtain ⟨-, -, -, ha⟩ := hres
            rw [← ha]
            exact h2
      | L => exact absurd rfl hL

theorem split_settle_games_played (dbl1 dbl2 : Bool) (h1 h2 dh : Hand)
    (d : Deck) (bet : Int) (a : Account) (r : SplitResult) (a' : Account)
    (d' : Deck)
    (hres : split_settle dbl1 dbl2 h1 h2 dh d bet a = .ok (r, a', d')) :
    a'.games_played = a.games_played := by
  unfold split_settle at hres
  by_cases hdb : dh.is_bust
  · rw [if_pos hdb] at hres
    by_cases hb1 : h1.is_bust = false <;> by_cases hb2 : h2.is_bust = false <;>
      simp only [hb1, hb2, if_true, if_false, ite_true, ite_false,
        eq_self_iff_true, if_pos, if_neg] at hres <;>
      simp [hb1, hb2] at hres
    · obtain ⟨-, ha, -⟩ := hres
      rw [← ha, calculate_payoff_games_played, calculate_payoff_games_played]
  · rw [if_neg hdb] at hres
    by_cases hb1 : h1.is_bust = false <;> by_cases hb2 : h2.is_bust = false <;>
      simp only [hb1, hb2, if_true, if_false, ite_true, ite_false,
        eq_self_iff_true, if_pos, if_neg] at hres <;>
      simp [hb1, hb2] at hres
    · obtain ⟨-, ha, -⟩ := hres
      rw [← ha, check_winner_games_played, check_winner_games_played]

theorem split_games_played (fuel : Nat) (sd : SplitDecs)
    (hand dealer_hand : Hand) (deck : Deck) (bet : Int) (a : Account)
    (r : SplitResult) (a' : Account) (d' : Deck)
    (hres : split fuel sd hand dealer_hand deck bet a = .ok (r, a', d')) :
    a'.games_played = a.games_played + 1 := by
  unfold split at hres
  cases hcards : hand.cards with
  | nil => rw [hcards] at hres; simp at hres
  | cons c0 rest =>
    cases rest with
    | nil => rw [hcards] at hres; simp at hres
    | cons c1 rest2 =>
      rw [hcards] at hres
      simp only at hres
      cases hd1 : draw_card deck with
      | none => rw [hd1] at hres; simp at hres
      | some p1 =>
        obtain ⟨d1c, deck1⟩ := p1
        rw [hd1] at hres
        simp only at hres
        cases hd2 : draw_card deck1 with
        | none => rw [hd2] at hres; simp at hres
        | some p2 =>
          obtain ⟨d2c, deck2⟩ := p2
          rw [hd2] at hres
          simp only at hres
          cases hp1 : play_split sd.a1 sd.hits1
              (add_card (add_card Hand.init c0) d1c) deck2 bet
              { a with games_played := a.games_played + 1 } with
          | error e => rw [hp1] at hres; simp at hres
          | ok q1 =>
            obtain ⟨dbl1, h1', deck3, a1⟩ := q1
            rw [hp1] at hres
            simp only at hres
            cases hp2 : play_split sd.a2 sd.hits2
                (add_card (add_card Hand.init c1) d2c) deck3 bet a1 with
            | error e => rw [hp2] at hres; simp at hres
            | ok q2 =>
              obtain ⟨dbl2, h2', deck4, a2⟩ := q2
              rw [hp2] at hres
              simp only at hres
              have g1 := play_split_games_played _ _ _ _ _ _ _ _ _ _ hp1
              have g2 := play_split_games_played _ _ _ _ _ _ _ _ _ _ hp2
              simp only at g1
              by_cases hbb : h2'.is_bust = false ∨ h1'.is_bust = false
              · rw [if_pos hbb] at hres
                cases hsd : split_dealer_play fuel dealer_hand deck4 with
                | error e => rw [hsd] at hres; simp at hres
                | ok q3 =>
                  obtain ⟨dh', deck5⟩ := q3
                  rw [hsd] at hres
                  simp only at hres
                  have g3 := split_settle_games_played _ _ _ _ _ _ _ _ _ _ _ hres
                  omega
              · rw [if_neg hbb] at hres
                simp only [Except.ok.injEq, Prod.mk.injEq] at hres
                obtain ⟨-, hA, -⟩ := hres
                rw [← hA]
                omega

/-- C8: for every completed embedded round, the account counter `games_played`
counter grows by exactly one — except that a round which entered the split
path (no dealt blackjack, accepted action L) grows it by exactly two, one
increment per split sub-round. -/
theorem games_played_once_per_round (fuel : Nat) (dec : Decisions)
    (acct : Account) (deck : Deck) (a' : Account) (d' : Deck)
    (ph dh : Hand) (dk : Deck)
    (hres : play_game fuel dec acct deck = .ok (a', d'))
    (hdeal : dealt_hands deck = some (ph, dh, dk)) :
    a'.games_played = acct.games_played +
      (if ph.is_blackjack = false ∧ dec.action = PlayerAction.L then 2
       else 1) := by
  unfold play_game at hres
  simp only at hres
  cases hgb : get_bet dec.bet { acct with games_played := acct.games_played + 1 } with
  | error e => rw [hgb] at hres; simp at hres
  | ok q =>
    obtain ⟨bet, acct2⟩ := q
    rw [hgb] at hres
    simp only at hres
    rw [hdeal] at hres
    simp only at hres
    have g1 : acct2.games_played = acct.games_played + 1 := by
      rw [get_bet_games_played _ _ _ _ hgb]
    by_cases hbj : ph.is_blackjack = true
    · rw [if_pos hbj] at hres
      rw [if_neg (by simp [hbj])]
      cases hdp : dealer_play fuel dh dk with
      | error e => rw [hdp] at hres; simp at hres
      | ok q2 =>
        obtain ⟨alive, dh2, deck2⟩ := q2
        rw [hdp] at hres
        simp only at hres
        by_cases hal : alive = false
        · rw [if_pos hal] at hres
          simp only [Except.ok.injEq, Prod.mk.injEq] at hres
          obtain ⟨hA, -⟩ := hres
          rw [← hA, calculate_payoff_games_played]
          omega
        · rw [if_neg hal] at hres
          simp only [Except.ok.injEq, Prod.mk.injEq] at hres
          obtain ⟨hA, -⟩ := hres
          rw [← hA, check_winner_games_played]
          omega
    · rw [if_neg hbj] at hres
      have hbjf : ph.is_blackjack = false := by
        cases hb2 : ph.is_blackjack
        · rfl
        · exact absurd hb2 hbj
      by_cases hns : dec.action = PlayerAction.L ∧ split_allowed ph = false
      · rw [if_pos hns] at hres
        simp at hres
      · rw [if_neg hns] at hres
        cases hga : get_action_eff dec.action bet acct2 with
        | error e => rw [hga] at hres; simp at hres
        | ok acct3 =>
          rw [hga] at hres
          simp only at hres
          have g2 : acct3.games_played = acct2.games_played :=
            get_action_eff_games_played _ _ _ _ hga
          cases hact : dec.action with
          | H =>
            rw [hact] at hres
            rw [if_neg (by simp [hact])]
            simp only at hres
            cases hh : hit dec.hits ph dk with
            | error e => rw [hh] at hres; simp at hres
            | ok q3 =>
              obtain ⟨stood, ph2, deck2⟩ := q3
              rw [hh] at hres
              simp only at hres
              by_cases hst : stood = false
              · rw [if_pos hst] at hres
                simp only [Except.ok.injEq, Prod.mk.injEq] at hres
                obtain ⟨hA, -⟩ := hres
                rw [← hA]
                omega
              · rw [if_neg hst] at hres
                cases hdp : dealer_play fuel dh deck2 with
                | error e => rw [hdp] at hres; simp at hres
                | ok q4 =>
                  obtain ⟨alive, dh2, deck3⟩ := q4
                  rw [hdp] at hres
                  simp only at hres
                  by_cases hal : alive = false
                  · rw [if_pos hal] at hres
                    simp only [Except.ok.injEq, Prod.mk.injEq] at hres
                    obtain ⟨hA, -⟩ := hres
                    rw [← hA, calculate_payoff_games_played]
                    omega
                  · rw [if_neg hal] at hres
                    simp only [Except.ok.injEq, Prod.mk.injEq] at hres
                    obtain ⟨hA, -⟩ := hres
                    rw [← hA, check_winner_games_played]
                    omega
          | S =>
            rw [hact] at hres
            rw [if_neg (by simp [hact])]
            simp only at hres
            cases hdp : dealer_play fuel dh dk with
            | error e => rw [hdp] at hres; simp at hres
            | ok q4 =>
              obtain ⟨alive, dh2, deck3⟩ := q4
              rw [hdp] at hres
              simp only at hres
              by_cases hal : alive = false
              · rw [if_pos hal] at hres
                simp only [Except.ok.injEq, Prod.mk.injEq] at hres
                obtain ⟨hA, -⟩ := hres
                rw [← hA, calculate_payoff_games_played]
                omega
              · rw [if_neg hal] at hres
                simp only [Except.ok.injEq, Prod.mk.injEq] at hres
                obtain ⟨hA, -⟩ := hres
                rw [← hA, check_winner_games_played]
                omega
          | D =>
            rw [hact] at hres
            rw [if_neg (by simp [hact])]
            simp only at hres
            cases hdc : draw_card dk with
            | none => rw [hdc] at hres; simp at hres
            | some p =>
              obtain ⟨c, deck2⟩ := p
              rw [hdc] at hres
              simp only at hres
              by_cases hbu : (add_card ph c).is_bust
              · rw [if_pos hbu] at hres
                simp only [Except.ok.injEq, Prod.mk.injEq] at hres
                obtain ⟨hA, -⟩ := hres
                rw [← hA]
                omega
              · rw [if_neg hbu] at hres
                cases hdp : dealer_play fuel dh deck2 with
                | error e => rw [hdp] at hres; simp at hres
                | ok q4 =>
                  obtain ⟨alive, dh2, deck3⟩ := q4
                  rw [hdp] at hres
                  simp only at hres
                  by_cases hal : alive = false
                  · rw [if_pos hal] at hres
                    simp only [Except.ok.injEq, Prod.mk.injEq] at hres
                    obtain ⟨hA, -⟩ := hres
                    rw [← hA, calculate_payoff_games_played]
                    omega
                  · rw [if_neg hal] at hres
                    simp only [Except.ok.injEq, Prod.mk.injEq] at hres
                    obtain ⟨hA, -⟩ := hres
                    rw [← hA, check_winner_games_played]
                    omega
          | L =>
            rw [hact] at hres
            rw [if_pos ⟨hbjf, rfl⟩]
            simp only at hres
            cases hsp : split fuel dec.sd ph dh dk bet acct3 with
            | error e => rw [hsp] at hres; simp at hres
            | ok q3 =>
              obtain ⟨r, acct4, deck2⟩ := q3
              rw [hsp] at hres
              simp only [Except.ok.injEq, Prod.mk.injEq] at hres
              obtain ⟨hA, -⟩ := hres
              have g3 := split_games_played _ _ _ _ _ _ _ _ _ _ hsp
              rw [← hA]
              omega

def c8S : Card := { suit := .spade, rank := .R8 }

def c8H : Card := { suit := .heart, rank := .R8 }

def c3S : Card := { suit := .spade, rank := .R3 }

def c2S : Card := { suit := .spade, rank := .R2 }

/-- Decisions of the C8 witness round: bet $10, split the dealt [8♠, 8♥],
stand on both sub-hands. -/
def dec8 : Decisions :=
  { bet := 1000, action := .L, hits := []
    sd := { a1 := .S, hits1 := [], a2 := .S, hits2 := [] } }

def acct100 : Account :=
  { balance := 10000, bet := 0, net_earnings := 0
    games_played := 0, games_won := 0, deposited := 0 }

/-- A shoe arranged (top = end of the list) to deal 8♠ and 8♥ to the
player, 10♠ to the dealer, then 2♠ / 3♠ to the split sub-hands and 9♠ to
the dealer (→ 19). -/
def deck8 : Deck :=
  { cards := List.replicate 144 c2D ++ [c9S, c3S, c2S, c8H, cTS, c8S]
    shuffle_point := 60
    rand := fun _ => r1
    ridx := 0 }

/-- The player hand the C8 witness round deals. -/
def ph8 : Hand := add_card (add_card Hand.init c8S) c8H

/-- The dealer hand the C8 witness round deals. -/
def dh8 : Hand := add_card Hand.init cTS

/-- The shoe after the C8 witness deal. -/
def dk8 : Deck :=
  { cards := List.replicate 144 c2D ++ [c9S, c3S, c2S]
    shuffle_point := 60
    rand := fun _ => r1
    ridx := 0 }

/-- The account after the C8 witness round: two wagers of $10 placed,
both sub-hands lost to the dealer's 19, and two `games_played` increments
(one for the round, one for the split). -/
def acct8final : Account :=
  { balance := 8000, bet := 2000, net_earnings := -2000
    games_played := 2, games_won := 0, deposited := 0 }

/-- The shoe after the C8 witness round's six draws. -/
def deck8final : Deck :=
  { cards := List.replicate 144 c2D
    shuffle_point := 60
    rand := fun _ => r1
    ridx := 0 }

set_option maxRecDepth 40000 in
/-- Witness for C8: a fully played split round increments `games_played`
by exactly two. -/
theorem games_played_once_per_round_witness :
    play_game 3 dec8 acct100 deck8 = .ok (acct8final, deck8final) ∧
      dealt_hands deck8 = some (ph8, dh8, dk8) ∧
      acct8final.games_played = acct100.games_played +
        (if ph8.is_blackjack = false ∧ dec8.action = PlayerAction.L then 2
         else 1) :=
  ⟨rfl, rfl,
    games_played_once_per_round 3 dec8 acct100 deck8 acct8final deck8final
      ph8 dh8 dk8 rfl rfl⟩
